import Mathlib

/-!
Verification model of the mtgslop batch-resolution and pagination engine
(`notes/fetch_cards_by_name.py` and `notes/scryfall.py`).

The Python code is shallowly embedded: the remote provider is modelled as a
deterministic oracle, a function from the request payload and a global request
counter to a response; `time.sleep` calls are recorded as events; `sys.exit`,
uncaught exceptions and the `RuntimeError("Unreachable")` line are explicit
outcome constructors.  String helpers are defined over the character lists of
`String` so that every definition evaluates inside the kernel.
-/

namespace MtgSlop

/-! ### String helpers (models of the Python string primitives used) -/

/-- Model of Python `str.lower()` (`.lower()` in the source; ASCII case folding,
which covers every name handled by the program). -/
def lowerStr (s : String) : String := ⟨s.data.map Char.toLower⟩

/-- Model of Python `str.strip()`: drop whitespace from both ends. -/
def trimStr (s : String) : String :=
  ⟨((s.data.dropWhile Char.isWhitespace).reverse.dropWhile Char.isWhitespace).reverse⟩

/-- Splitter on a separator over character lists, fuelled so that the
recursion is structural.  Mirrors Python `str.split(sep)` for a non-empty
separator (the source only splits on `" // "`). -/
def splitOnAuxL (sep : List Char) : Nat → List Char → List Char → List (List Char)
  | 0, rest, cur => [cur.reverse ++ rest]
  | fuel + 1, s, cur =>
    match s with
    | [] => [cur.reverse]
    | c :: rest =>
      if sep.isPrefixOf (c :: rest) then
        cur.reverse :: splitOnAuxL sep fuel ((c :: rest).drop sep.length) []
      else
        splitOnAuxL sep fuel rest (c :: cur)

/-- Model of Python `s.split(sep)` for the non-empty separators of the source. -/
def splitOnStr (s sep : String) : List String :=
  (splitOnAuxL sep.data (s.data.length + 1) s.data []).map (fun l => ⟨l⟩)

/-- Model of the Python membership test `" // " in s`: the split yields at
least two parts exactly when the separator occurs. -/
def containsSep (s : String) : Bool := 2 ≤ (splitOnStr s " // ").length

/-- Model of Python `s.split(" // ", 1)[0]`: everything before the first
occurrence of the separator (the whole string when the separator is absent). -/
def frontOf (s : String) : String := (splitOnStr s " // ").headD s

/-- Model of Python `s.startswith(pre)`. -/
def startsWithStr (s pre : String) : Bool := pre.data.isPrefixOf s.data

/-- Model of Python `int(s)` on the header strings this program feeds it:
an optionally signed decimal integer with surrounding whitespace; any other
shape raises `ValueError`, modelled as `none`. -/
def pyInt (s : String) : Option Int :=
  let digitsVal : List Char → Int := fun ds =>
    ds.foldl (fun n c => n * 10 + (Int.ofNat (c.toNat - 48))) 0
  match (trimStr s).data with
  | '-' :: ds => if ds ≠ [] ∧ ds.all Char.isDigit then some (-(digitsVal ds)) else none
  | '+' :: ds => if ds ≠ [] ∧ ds.all Char.isDigit then some (digitsVal ds) else none
  | ds => if ds ≠ [] ∧ ds.all Char.isDigit then some (digitsVal ds) else none

/-- Strict case-insensitive comparison of two character lists by code point,
the order Python's `sorted(..., key=str.lower)` uses on lower-cased strings. -/
def ltCharsB : List Char → List Char → Bool
  | [], [] => false
  | [], _ :: _ => true
  | _ :: _, [] => false
  | a :: as, b :: bs =>
    if a.toNat < b.toNat then true
    else if b.toNat < a.toNat then false
    else ltCharsB as bs

/-- `a` is strictly below `b` when both are lower-cased (Python's
`key=str.lower` comparison). -/
def ltLower (a b : String) : Bool := ltCharsB (lowerStr a).data (lowerStr b).data

/-! ### Ordered-list models of Python containers -/

/-- Model of Python `dict[str, card]` assignment `m[key] = v`: an existing key
keeps its position and gets the new value, a new key is appended.  The mapping
is kept as an insertion-ordered association list, as Python dicts are. -/
def insertD (m : List (String × α)) (key : String) (v : α) : List (String × α) :=
  if m.any (fun p => p.1 == key) then
    m.map (fun p => if p.1 == key then (key, v) else p)
  else m ++ [(key, v)]

/-- Model of adding an element to a Python `set` accumulated in first-seen
order (`seen.add(x)` guarded by `x not in seen`). -/
def insertAbsent (acc : List String) (x : String) : List String :=
  if acc.contains x then acc else acc ++ [x]

/-- Add every element of `xs` to the set `acc`, keeping first-seen order. -/
def dedupAppendInto (acc : List String) (xs : List String) : List String :=
  xs.foldl insertAbsent acc

/-- Order-preserving deduplication (Python `if x not in seen` accumulation). -/
def dedupFirst (xs : List String) : List String := dedupAppendInto [] xs

/-- Insert `x` into a list sorted case-insensitively, after strictly smaller
elements and before elements greater-or-equal, which keeps the sort stable. -/
def insertLower (x : String) : List String → List String
  | [] => [x]
  | y :: ys => if ltLower y x then y :: insertLower x ys else x :: y :: ys

/-- Model of Python `sorted(xs, key=str.lower)`: stable insertion sort under
the case-insensitive order. -/
def sortByLower : List String → List String
  | [] => []
  | x :: xs => insertLower x (sortByLower xs)

/-! ### Data model -/

/-- A provider card record; only `name` and `id` are semantically inspected by
the program, so the rest of the document is not modelled. -/
structure Card where
  name : Option String
  id : Option String
deriving DecidableEq, Repr

/-- Decoded body of a collection-lookup response: `data` (records) and
`not_found` (echoed unmatched identifiers, already reduced to their name
strings as lines 109-111 of `fetch_cards_by_name.py` do). -/
structure CollResp where
  data : List Card
  notFound : List String
deriving DecidableEq, Repr

/-- One HTTP interaction outcome for the batch path: a transport-level
`requests.RequestException`, or a response with a status code, an optional
`Retry-After` header and a decoded body. -/
inductive HResp where
  | netErr
  | resp (status : Nat) (retryAfter : Option String) (body : CollResp)

/-- The `not_found` names carried by a response (none for a network error). -/
def notFoundNames : HResp → List String
  | .netErr => []
  | .resp _ _ b => b.notFound

/-- A recorded `time.sleep`: exponential backoff of `base ^ attempt` seconds
(base 1.5 in the batch path, 2 in the pagination path), or a rate-limit wait
of `max 1 retry_after` seconds. -/
inductive SleepEvt where
  | backoffExp (attempt : Nat)
  | rateWait (secs : Int)
deriving DecidableEq, Repr

/-- Result of one `fetch_batch` call: the decoded body, `sys.exit(code)`, an
uncaught `ValueError` from `int()` on a malformed `Retry-After` header, or the
`raise RuntimeError("Unreachable")` after the attempt loop. -/
inductive FBResult where
  | success (body : CollResp)
  | sysExit (code : Nat)
  | valueError
  | unreachable
deriving DecidableEq, Repr

/-- Observable outcome of a `fetch_batch` call: result, next value of the
global request counter, the payload of every POST issued, and sleeps. -/
structure FBOut where
  result : FBResult
  k : Nat
  reqs : List (List String)
  sleeps : List SleepEvt
deriving DecidableEq, Repr

/-- The remote provider: a deterministic oracle from the posted identifier
payload and the global request counter to a response. -/
def Provider := List String → Nat → HResp

/-- The attempt loop of `fetch_batch` (lines 69-92): `fuel` counts the
remaining iterations of `for attempt in range(retries + 1)`, `attempt` the
current index, `k` the global request counter.  A 429 response sleeps
`max(1, int(Retry-After or "1"))` and continues (consuming an iteration); a
network failure or a non-429 status at least 400 (whose `raise_for_status`
raises a `RequestException` caught by the same handler) backs off and retries,
or exits with status 3 on the last attempt; any other status returns the body. -/
def fetchBatchAux (provider : Provider) (payload : List String) (retries : Nat) :
    Nat → Nat → Nat → FBOut
  | 0, _, k => ⟨.unreachable, k, [], []⟩
  | fuel + 1, attempt, k =>
    match provider payload k with
    | .netErr =>
      if attempt = retries then ⟨.sysExit 3, k + 1, [payload], []⟩
      else
        let o := fetchBatchAux provider payload retries fuel (attempt + 1) (k + 1)
        ⟨o.result, o.k, payload :: o.reqs, .backoffExp attempt :: o.sleeps⟩
    | .resp status ra body =>
      if status = 429 then
        match pyInt (ra.getD "1") with
        | none => ⟨.valueError, k + 1, [payload], []⟩
        | some v =>
          let o := fetchBatchAux provider payload retries fuel (attempt + 1) (k + 1)
          ⟨o.result, o.k, payload :: o.reqs, .rateWait (max 1 v) :: o.sleeps⟩
      else if 400 ≤ status then
        if attempt = retries then ⟨.sysExit 3, k + 1, [payload], []⟩
        else
          let o := fetchBatchAux provider payload retries fuel (attempt + 1) (k + 1)
          ⟨o.result, o.k, payload :: o.reqs, .backoffExp attempt :: o.sleeps⟩
      else ⟨.success body, k + 1, [payload], []⟩

/-- `fetch_batch(session, names, retries)` with the session replaced by the
provider oracle and the global request counter `k`. -/
def fetchBatch (provider : Provider) (payload : List String) (retries : Nat) (k : Nat) : FBOut :=
  fetchBatchAux provider payload retries (retries + 1) 0 k

/-! ### Batch resolution (`fetch_all` and the reassembly in `main`) -/

/-- `BATCH_LIMIT = 75` (line 41). -/
def BATCH_LIMIT : Nat := 75

/-- Fuelled body of `chunked` (lines 62-64): emit `size`-slices until the
sequence is exhausted.  One unit of fuel per chunk; `seq.length` units suffice
whenever `size` is positive. -/
def chunkedAux (size : Nat) : Nat → List String → List (List String)
  | 0, _ => []
  | fuel + 1, seq =>
    match seq with
    | [] => []
    | _ :: _ => seq.take size :: chunkedAux size fuel (seq.drop size)

/-- `chunked(seq, size)`: partition into contiguous slices of at most `size`
elements.  The source only calls it with `size = BATCH_LIMIT`; a zero size
(which would make Python's `range` raise) is mapped to the empty partition. -/
def chunked (seq : List String) (size : Nat) : List (List String) :=
  if size = 0 then [] else chunkedAux size seq.length seq

/-- Merging the `data` records of a response into the running mapping
(lines 105-108): a record is stored under its own `name` field whenever that
field is present and non-empty (Python truthiness of `card.get("name")`). -/
def mergeCards (results : List (String × Card)) (cards : List Card) : List (String × Card) :=
  cards.foldl
    (fun r c =>
      match c.name with
      | some s => if s == "" then r else insertD r s c
      | none => r)
    results

/-- Front-face retry candidates of a batch's not-found names (lines 112-117):
for every name containing `" // "`, the stripped part before the separator,
when non-empty, in order with duplicates kept. -/
def frontFaceCandidates (nfNames : List String) : List String :=
  nfNames.filterMap (fun original =>
    if containsSep original then
      let front := trimStr (frontOf original)
      if front == "" then none else some front
    else none)

/-- The not-found names a batch considers resolved after its front-face
retries (lines 118-133): when at least one retry candidate existed, every
not-found name whose lower-cased form equals the lower-cased form of some key
of the accumulated mapping; otherwise none (the check is skipped). -/
def resolvedByRetrySet (results : List (String × Card)) (nfNames : List String) : List String :=
  if frontFaceCandidates nfNames = [] then []
  else nfNames.filter (fun original => results.any (fun p => lowerStr p.1 == lowerStr original))

/-- A fatal way out of the run: `sys.exit(code)`, an uncaught `ValueError`, or
the `RuntimeError("Unreachable")` line. -/
inductive AbortKind where
  | sysExit (code : Nat)
  | valueError
  | unreachable
deriving DecidableEq, Repr

/-- Running state of `fetch_all`: the mapping, the cumulative unresolved set
(kept in first-seen order; it is only read through membership and a final
case-insensitive sort), the global request counter and the payload log. -/
structure FAState where
  results : List (String × Card)
  unresolved : List String
  k : Nat
  reqs : List (List String)
deriving DecidableEq, Repr

/-- Lift a non-success `fetch_batch` result to the abort it causes. -/
def abortOfFB : FBResult → AbortKind
  | .success _ => .unreachable
  | .sysExit c => .sysExit c
  | .valueError => .valueError
  | .unreachable => .unreachable

/-- The front-face retry loop (lines 123-128): issue each sub-chunk through
`fetch_batch` and merge the returned records into the mapping. -/
def retryGo (provider : Provider) :
    List (List String) → List (String × Card) × Nat × List (List String) →
    Except AbortKind (List (String × Card) × Nat × List (List String))
  | [], acc => .ok acc
  | sub :: rest, (res, k, reqs) =>
    let o := fetchBatch provider sub 4 k
    match o.result with
    | .success b => retryGo provider rest (mergeCards res b.data, o.k, reqs ++ o.reqs)
    | r => .error (abortOfFB r)

/-- Processing of one primary batch (lines 102-144): fetch, merge `data`,
extract front-face candidates from `not_found`, dedupe them (case-sensitively,
`set(...)`), sort them case-insensitively, re-issue them through the same
partition-and-request path, and add the names still missing to the cumulative
unresolved set. -/
def processBatch (provider : Provider) (st : FAState) (batch : List String) :
    Except AbortKind FAState :=
  let o := fetchBatch provider batch 4 st.k
  match o.result with
  | .success body =>
    let results1 := mergeCards st.results body.data
    let nfNames := body.notFound
    let ffr := frontFaceCandidates nfNames
    let retried :=
      if ffr = [] then Except.ok (results1, o.k, st.reqs ++ o.reqs)
      else retryGo provider (chunked (sortByLower (dedupFirst ffr)) BATCH_LIMIT)
        (results1, o.k, st.reqs ++ o.reqs)
    match retried with
    | .error e => .error e
    | .ok (results2, k2, reqs2) =>
      let resolvedTB := resolvedByRetrySet results2 nfNames
      let stillMissing := nfNames.filter (fun n => !(resolvedTB.contains n))
      .ok ⟨results2, dedupAppendInto st.unresolved stillMissing, k2, reqs2⟩
  | r => .error (abortOfFB r)

/-- The batch loop of `fetch_all`. -/
def fetchAllGo (provider : Provider) : List (List String) → FAState → Except AbortKind FAState
  | [], st => .ok st
  | b :: bs, st =>
    match processBatch provider st b with
    | .error e => .error e
    | .ok st' => fetchAllGo provider bs st'

/-- Return value of `fetch_all` plus the request observables. -/
structure FAOut where
  results : List (String × Card)
  unresolvedSorted : List String
  k : Nat
  reqs : List (List String)
deriving DecidableEq, Repr

/-- `fetch_all(names)` (lines 95-148): process the `BATCH_LIMIT`-chunks of the
input in order and return the mapping together with the unresolved names
sorted case-insensitively. -/
def fetchAll (provider : Provider) (names : List String) : Except AbortKind FAOut :=
  match fetchAllGo provider (chunked names BATCH_LIMIT) ⟨[], [], 0, []⟩ with
  | .error e => .error e
  | .ok st => .ok ⟨st.results, sortByLower st.unresolved, st.k, st.reqs⟩

/-- Outcome of `read_names` (lines 44-59): the deduplicated name list, or
`sys.exit(2)` when the input file cannot be read (`OSError`).  The input is
the file's lines, or `none` for an unreadable file. -/
inductive ReadResult where
  | ok (names : List String)
  | exit (code : Nat)
deriving DecidableEq, Repr

/-- `read_names`: strip each line, skip blank lines and `#` comments, and
deduplicate first-seen. -/
def readNames : Option (List String) → ReadResult
  | none => .exit 2
  | some lines =>
    .ok (dedupFirst ((lines.map trimStr).filter
      (fun raw => !(raw == "") && !(startsWithStr raw "#"))))

/-- The case-insensitive index built in `main` (line 183):
`{k.lower(): v for k, v in cards.items()}`. -/
def mkLowerMap (results : List (String × Card)) : List (String × Card) :=
  results.foldl (fun lm p => insertD lm (lowerStr p.1) p.2) []

/-- `resolve_input_name` (lines 185-195): exact case-insensitive lookup, else,
for a composite name, the first index entry whose key starts with
`front + " // "` (the front face is not stripped here, unlike in
`fetch_all`). -/
def resolveInputName (lowerMap : List (String × Card)) (inp : String) : Option Card :=
  let lk := lowerStr inp
  match (lowerMap.find? (fun p => p.1 == lk)).map (fun p => p.2) with
  | some c => some c
  | none =>
    if containsSep lk then
      match lowerMap.find? (fun p => startsWithStr p.1 (frontOf lk ++ " // ")) with
      | some p => some p.2
      | none => none
    else none

/-- State of the output-ordering loop (lines 197-210): emitted records, the
set of already-seen provider ids, and the set of mapped input names. -/
structure LoopState where
  ordered : List Card
  seenIds : List String
  mapped : List String
deriving DecidableEq, Repr

/-- The guard `if cid and cid in seen_ids: continue` (line 206): the record is
skipped exactly when its id is truthy (present and non-empty) and already
seen. -/
def shouldSkip (s : LoopState) (card : Card) : Bool :=
  match card.id with
  | some cid => !(cid == "") && s.seenIds.contains cid
  | none => false

/-- The emitted list after one record: unchanged when skipped, appended
otherwise (line 210). -/
def emitList (s : LoopState) (card : Card) : List Card :=
  if shouldSkip s card then s.ordered else s.ordered ++ [card]

/-- `if cid: seen_ids.add(cid)` (lines 208-209) on the non-skip path. -/
def seenNext (s : LoopState) (card : Card) : List String :=
  match card.id with
  | some cid =>
    if cid == "" then s.seenIds
    else if s.seenIds.contains cid then s.seenIds
    else insertAbsent s.seenIds cid
  | none => s.seenIds

/-- One iteration of the output-ordering loop: a resolvable name is always
marked mapped (line 204, before the duplicate check); its record is emitted
unless it carries a truthy `id` that was already emitted, in which case it is
silently dropped. -/
def orderedStep (lowerMap : List (String × Card)) (s : LoopState) (original : String) :
    LoopState :=
  match resolveInputName lowerMap original with
  | none => s
  | some card => ⟨emitList s card, seenNext s card, insertAbsent s.mapped original⟩

/-- Observable outcome of a completed `main` run (lines 171-231, minus the
file plumbing): the resolution results plus the reassembled output and the
final unresolved accounting. -/
structure RunOut where
  results : List (String × Card)
  unresolvedNames : List String
  orderedCards : List Card
  mappedNames : List String
  orderingUnresolved : List String
  combinedUnresolved : List String
  k : Nat
  reqs : List (List String)
deriving DecidableEq, Repr

/-- `main` after `read_names` (lines 180-230): run `fetch_all`, build the
case-insensitive index, walk the input sequence (the input order, or the
mapping's keys sorted case-insensitively under `--sort alpha`), then compute
`ordering_unresolved` (input names never mapped) and `combined_unresolved`
(the order-preserving deduplicated union of the provider-level unresolved
names and `ordering_unresolved`). -/
def mainRun (provider : Provider) (names : List String) (sortAlpha : Bool) :
    Except AbortKind RunOut :=
  match fetchAll provider names with
  | .error e => .error e
  | .ok fa =>
    let lowerMap := mkLowerMap fa.results
    let inputSeq := if sortAlpha then sortByLower (fa.results.map (fun p => p.1)) else names
    let ls := inputSeq.foldl (orderedStep lowerMap) ⟨[], [], []⟩
    let orderingUnresolved := names.filter (fun n => !(ls.mapped.contains n))
    .ok ⟨fa.results, fa.unresolvedSorted, ls.ordered, ls.mapped, orderingUnresolved,
      dedupFirst (fa.unresolvedSorted ++ orderingUnresolved), fa.k, fa.reqs⟩

/-! ### Pagination (`scryfall.py`, `stream_cards`) -/

/-- `API_SEARCH` (line 18 of `scryfall.py`). -/
def API_SEARCH : String := "https://api.scryfall.com/cards/search"

/-- One page of search results: records, the `has_more` flag and the optional
`next_page` URL. -/
structure Page where
  data : List Card
  hasMore : Bool
  nextPage : Option String
deriving DecidableEq, Repr

/-- One HTTP interaction outcome for the pagination path. -/
inductive SResp where
  | netErr
  | resp (status : Nat) (retryAfter : Option String) (body : Page)

/-- A GET issued by `stream_cards`: the initial search request with the
`q`/`unique`/`order` parameters attached (issued whenever the target URL
equals `API_SEARCH`, lines 29-30), or a bare URL fetch (line 32). -/
inductive SReq where
  | withParams (url q uniq ord : String)
  | plain (url : String)
deriving DecidableEq, Repr

/-- The search provider oracle: from the request and the global request
counter to a response. -/
def SProvider := SReq → Nat → SResp

/-- Result of the inner 5-attempt loop of `stream_cards` (lines 27-55):
a decoded page, a propagated `RequestException` (`raise` at attempt 4), an
uncaught `ValueError` from `int()` on a malformed `Retry-After` header, or
falling out of the loop with the `page` variable never assigned (every
iteration ended in `continue` or a caught failure). -/
inductive PFResult where
  | page (p : Page)
  | raised
  | valueError
  | fellThrough
deriving DecidableEq, Repr

/-- Observable outcome of one page-fetch loop. -/
structure PFOut where
  result : PFResult
  k : Nat
  reqs : List SReq
  sleeps : List SleepEvt
deriving DecidableEq, Repr

/-- The `for attempt in range(5)` loop of `stream_cards`: same shape as
`fetchBatchAux`, with backoff `2 ^ attempt` and a hard-coded final attempt
index 4. -/
def pageFetchAux (sp : SProvider) (req : SReq) : Nat → Nat → Nat → PFOut
  | 0, _, k => ⟨.fellThrough, k, [], []⟩
  | fuel + 1, attempt, k =>
    match sp req k with
    | .netErr =>
      if attempt = 4 then ⟨.raised, k + 1, [req], []⟩
      else
        let o := pageFetchAux sp req fuel (attempt + 1) (k + 1)
        ⟨o.result, o.k, req :: o.reqs, .backoffExp attempt :: o.sleeps⟩
    | .resp status ra body =>
      if status = 429 then
        match pyInt (ra.getD "1") with
        | none => ⟨.valueError, k + 1, [req], []⟩
        | some v =>
          let o := pageFetchAux sp req fuel (attempt + 1) (k + 1)
          ⟨o.result, o.k, req :: o.reqs, .rateWait (max 1 v) :: o.sleeps⟩
      else if 400 ≤ status then
        if attempt = 4 then ⟨.raised, k + 1, [req], []⟩
        else
          let o := pageFetchAux sp req fuel (attempt + 1) (k + 1)
          ⟨o.result, o.k, req :: o.reqs, .backoffExp attempt :: o.sleeps⟩
      else ⟨.page body, k + 1, [req], []⟩

/-- One page fetch: five attempts starting at index 0. -/
def pageFetch (sp : SProvider) (req : SReq) (k : Nat) : PFOut :=
  pageFetchAux sp req 5 0 k

/-- Termination mode of a `stream_cards` run: normal exhaustion (`url` became
`None`), a propagated `RequestException`, the `NameError` from reading the
unassigned `page` variable on the first iteration, an uncaught `ValueError`,
or model fuel running out (the Python loop is unbounded). -/
inductive StreamOutcome where
  | done
  | raised
  | nameError
  | valueError
  | fuelOut
deriving DecidableEq, Repr

/-- Observable outcome of a `stream_cards` run: termination mode, the records
yielded in order, the final request counter and the request log. -/
structure StreamOut where
  outcome : StreamOutcome
  yielded : List Card
  k : Nat
  reqs : List SReq
deriving DecidableEq, Repr

/-- The `while url` loop of `stream_cards` (lines 26-60).  `pageVar` is the
Python local `page`: `none` while still unassigned.  When the inner loop falls
through without assigning it, the code reads the stale previous page (or hits
a `NameError` on the first iteration); otherwise the fetched page's records
are yielded and `url` becomes `next_page` when `has_more` is set. -/
def streamGo (sp : SProvider) (q uniq : String) :
    Nat → Option String → Option Page → Nat → StreamOut
  | 0, _, _, k => ⟨.fuelOut, [], k, []⟩
  | _ + 1, none, _, k => ⟨.done, [], k, []⟩
  | fuel + 1, some url, pageVar, k =>
    let req := if url = API_SEARCH then SReq.withParams url q uniq "name" else SReq.plain url
    let o := pageFetch sp req k
    match o.result with
    | .raised => ⟨.raised, [], o.k, o.reqs⟩
    | .valueError => ⟨.valueError, [], o.k, o.reqs⟩
    | .page p =>
      let r := streamGo sp q uniq fuel (if p.hasMore then p.nextPage else none) (some p) o.k
      ⟨r.outcome, p.data ++ r.yielded, r.k, o.reqs ++ r.reqs⟩
    | .fellThrough =>
      match pageVar with
      | none => ⟨.nameError, [], o.k, o.reqs⟩
      | some p =>
        let r := streamGo sp q uniq fuel (if p.hasMore then p.nextPage else none) (some p) o.k
        ⟨r.outcome, p.data ++ r.yielded, r.k, o.reqs ++ r.reqs⟩

/-- `stream_cards(query, unique)` with the given amount of outer-loop fuel:
the first request targets `API_SEARCH` and the `page` variable starts
unassigned. -/
def streamCards (sp : SProvider) (q uniq : String) (fuel : Nat) : StreamOut :=
  streamGo sp q uniq fuel (some API_SEARCH) none 0

/-! ### Concrete providers and records used in scenario runs -/

/-- A provider that answers every request immediately with an empty success
body: every batch resolves with nothing found and nothing missing. -/
def happyProvider : Provider := fun _ _ => .resp 200 none ⟨[], []⟩

/-- The composite double-faced test name. -/
def delverName : String := "Delver of Secrets // Insectile Aberration"

/-- The record the provider returns for the front-face retry, carrying the
full composite name. -/
def delverCard : Card := ⟨some delverName, some "d1"⟩

/-- Collection lookup reports the composite not found; the front-face retry
returns the record named by the full composite string. -/
def provDelver : Provider := fun _ k =>
  if k = 0 then .resp 200 none ⟨[], [delverName]⟩
  else .resp 200 none ⟨[delverCard], []⟩

/-- A record carrying only the front-face name. -/
def frontFaceCard : Card := ⟨some "Delver of Secrets", some "d2"⟩

/-- Variant provider: the front-face retry returns a record named by the bare
front face, not the composite. -/
def provFrontOnly : Provider := fun _ k =>
  if k = 0 then .resp 200 none ⟨[], [delverName]⟩
  else .resp 200 none ⟨[frontFaceCard], []⟩

/-- A record whose composite name shares a front face with `"A // B"`. -/
def acCard : Card := ⟨some "A // C", some "x1"⟩

/-- Provider for the disjointness counterexample: `"A // B"` is reported not
found, but the batch data carries `"A // C"`, which the output-ordering
front-face heuristic later matches. -/
def provAB : Provider := fun _ k =>
  if k = 0 then .resp 200 none ⟨[acCard], ["A // B"]⟩
  else .resp 200 none ⟨[], ["A"]⟩

/-- A record named by a composite whose front face is empty after stripping. -/
def emptyFrontCard : Card := ⟨some "  // B", some "w1"⟩

/-- Provider returning `"  // B"` both as found data and as not found. -/
def provEmptyFront : Provider := fun _ _ => .resp 200 none ⟨[emptyFrontCard], ["  // B"]⟩

/-- Provider reporting two case-variant composites as not found. -/
def provFire : Provider := fun _ k =>
  if k = 0 then .resp 200 none ⟨[], ["Fire // Ice", "FIRE // ICE"]⟩
  else .resp 200 none ⟨[], []⟩

/-- The single Island record. -/
def islandCard : Card := ⟨some "Island", some "i1"⟩

/-- Provider resolving every request to the single Island record. -/
def provIsland : Provider := fun _ _ => .resp 200 none ⟨[islandCard], []⟩

/-- Provider failing with a network error on the first four requests and
succeeding on the fifth. -/
def provNet4 : Provider := fun _ k =>
  if k < 4 then .netErr else .resp 200 none ⟨[islandCard], []⟩

/-- Provider failing with a network error on every request. -/
def provNetAll : Provider := fun _ _ => .netErr

/-- Provider answering 429 (Retry-After 1) to the first five requests and 200
to the sixth. -/
def prov429x5 : Provider := fun _ k =>
  if k < 5 then .resp 429 (some "1") ⟨[], []⟩ else .resp 200 none ⟨[islandCard], []⟩

/-- Provider answering 429 to the first four requests and 200 to the fifth. -/
def prov429x4 : Provider := fun _ k =>
  if k < 4 then .resp 429 (some "1") ⟨[], []⟩ else .resp 200 none ⟨[islandCard], []⟩

/-- Provider whose first response is 429 with an unparseable Retry-After. -/
def prov429Soon : Provider := fun _ k =>
  if k = 0 then .resp 429 (some "soon") ⟨[], []⟩ else .resp 200 none ⟨[islandCard], []⟩

/-- First and third stream page records. -/
def streamCard1 : Card := ⟨some "S1", some "s1"⟩

/-- Record of the page served after the stalled one. -/
def streamCard3 : Card := ⟨some "S3", some "s3"⟩

/-- Search provider answering 429 (Retry-After 1) to every request. -/
def sprov429 : SProvider := fun _ _ => .resp 429 (some "1") ⟨[], false, none⟩

/-- Search provider: page 1 succeeds with `has_more`, requests 1-5 all answer
429, request 6 serves the final page. -/
def sprovStale : SProvider := fun _ k =>
  if k = 0 then .resp 200 none ⟨[streamCard1], true, some "u2"⟩
  else if k ≤ 5 then .resp 429 (some "1") ⟨[], false, none⟩
  else .resp 200 none ⟨[streamCard3], false, none⟩

/-- Search provider whose first page's `next_page` is the search endpoint URL
itself. -/
def sprovLoop : SProvider := fun _ k =>
  if k = 0 then .resp 200 none ⟨[streamCard1], true, some API_SEARCH⟩
  else .resp 200 none ⟨[streamCard3], false, none⟩

/-- Search provider whose first response is 429 with an unparseable
Retry-After header. -/
def sprovSoon : SProvider := fun _ k =>
  if k = 0 then .resp 429 (some "soon") ⟨[], false, none⟩
  else .resp 200 none ⟨[streamCard1], false, none⟩

/-- Outcome of resolving `["Island"]` against `provIsland`. -/
def islandRunOut : RunOut :=
  ⟨[("Island", islandCard)], [], [islandCard], ["Island"], [], [], 1, [["Island"]]⟩

/-- Outcome of resolving `["island", "ISLAND"]` against `provIsland`: both
names map to the single record, which is emitted once. -/
def islandRun2Out : RunOut :=
  ⟨[("Island", islandCard)], [], [islandCard], ["island", "ISLAND"], [], [], 1,
    [["island", "ISLAND"]]⟩

/-- Outcome of resolving `["A // B"]` against `provAB`: the name is mapped by
the front-face reassembly heuristic yet also reported unresolved. -/
def abRunOut : RunOut :=
  ⟨[("A // C", acCard)], ["A // B"], [acCard], ["A // B"], [], ["A // B"], 2,
    [["A // B"], ["A"]]⟩

/-- Outcome of resolving the composite Delver name against `provDelver`. -/
def delverRunOut : RunOut :=
  ⟨[(delverName, delverCard)], [], [delverCard], [delverName], [], [], 2,
    [[delverName], ["Delver of Secrets"]]⟩

/-! ### Helper lemmas: set-like lists and the case-insensitive sort -/

theorem insertAbsent_mem (l : List String) (a x : String) :
    x ∈ insertAbsent l a ↔ x ∈ l ∨ x = a := by
  unfold insertAbsent
  by_cases h : l.contains a
  · rw [if_pos h]
    constructor
    · exact fun hx => Or.inl hx
    · rintro (hx | rfl)
      · exact hx
      · exact List.mem_of_elem_eq_true h
  · rw [if_neg h]
    simp only [List.mem_append, List.mem_singleton]

theorem dedupAppendInto_mem (xs : List String) :
    ∀ acc x, x ∈ dedupAppendInto acc xs ↔ x ∈ acc ∨ x ∈ xs := by
  induction xs with
  | nil => intro acc x; simp [dedupAppendInto]
  | cons a as ih =>
    intro acc x
    unfold dedupAppendInto at ih ⊢
    simp only [List.foldl_cons]
    rw [ih (insertAbsent acc a) x, insertAbsent_mem]
    simp only [List.mem_cons]
    tauto

theorem dedupFirst_mem (xs : List String) (x : String) :
    x ∈ dedupFirst xs ↔ x ∈ xs := by
  unfold dedupFirst
  rw [dedupAppendInto_mem]
  simp

theorem insertAbsent_nodup (l : List String) (a : String) (h : l.Nodup) :
    (insertAbsent l a).Nodup := by
  unfold insertAbsent
  by_cases hc : l.contains a
  · rwa [if_pos hc]
  · rw [if_neg hc]
    refine List.Nodup.append h (List.nodup_singleton a) ?_
    intro x hx hxa
    rw [List.mem_singleton] at hxa
    subst hxa
    exact hc (List.elem_eq_true_of_mem hx)

theorem dedupAppendInto_nodup (xs : List String) :
    ∀ acc, acc.Nodup → (dedupAppendInto acc xs).Nodup := by
  induction xs with
  | nil => intro acc h; simpa [dedupAppendInto]
  | cons a as ih =>
    intro acc h
    unfold dedupAppendInto at ih ⊢
    simp only [List.foldl_cons]
    exact ih (insertAbsent acc a) (insertAbsent_nodup acc a h)

theorem dedupFirst_nodup (xs : List String) : (dedupFirst xs).Nodup :=
  dedupAppendInto_nodup xs [] List.nodup_nil

theorem insertLower_perm (x : String) (l : List String) :
    (insertLower x l).Perm (x :: l) := by
  induction l with
  | nil => simp [insertLower]
  | cons y ys ih =>
    unfold insertLower
    by_cases h : ltLower y x
    · simp only [h, if_true]
      exact (ih.cons y).trans (List.Perm.swap x y ys)
    · simp [h]

theorem sortByLower_perm (l : List String) : (sortByLower l).Perm l := by
  induction l with
  | nil => simp [sortByLower]
  | cons x xs ih =>
    unfold sortByLower
    exact (insertLower_perm x (sortByLower xs)).trans (List.Perm.cons x ih)

theorem sortByLower_mem (l : List String) (x : String) :
    x ∈ sortByLower l ↔ x ∈ l :=
  (sortByLower_perm l).mem_iff

theorem ltCharsB_asymm (a b : List Char) (h : ltCharsB a b = true) :
    ltCharsB b a = false := by
  induction a generalizing b with
  | nil =>
    cases b with
    | nil => simp [ltCharsB] at h
    | cons c cs => simp [ltCharsB]
  | cons c cs ih =>
    cases b with
    | nil => simp [ltCharsB] at h
    | cons d ds =>
      simp only [ltCharsB] at h ⊢
      by_cases h1 : c.toNat < d.toNat
      · have h2 : ¬ d.toNat < c.toNat := by omega
        simp [h1, h2]
      · by_cases h2 : d.toNat < c.toNat
        · simp [h1, h2] at h
        · simp only [h1, h2, if_false] at h ⊢
          exact ih ds h

theorem ltCharsB_le_trans (a b c : List Char)
    (hab : ltCharsB b a = false) (hbc : ltCharsB c b = false) :
    ltCharsB c a = false := by
  induction a generalizing b c with
  | nil => cases c <;> simp [ltCharsB]
  | cons d ds ih =>
    cases b with
    | nil => simp [ltCharsB] at hab
    | cons e es =>
      cases c with
      | nil => simp [ltCharsB] at hbc
      | cons f fs =>
        simp only [ltCharsB] at hab hbc ⊢
        by_cases h1 : e.toNat < d.toNat
        · simp [h1] at hab
        · by_cases h2 : f.toNat < e.toNat
          · simp [h2] at hbc
          · by_cases h3 : f.toNat < d.toNat
            · omega
            · by_cases h4 : d.toNat < f.toNat
              · simp [h3, h4]
              · simp only [h3, h4, if_false]
                by_cases h5 : d.toNat < e.toNat
                · omega
                · by_cases h6 : e.toNat < f.toNat
                  · omega
                  · simp only [h1, h5, if_false] at hab
                    simp only [h2, h6, if_false] at hbc
                    exact ih es fs hab hbc

/-- The order in which `sortByLower` leaves its output: `a` before `b` means
`b` is not strictly below `a` case-insensitively. -/
def LeLower (a b : String) : Prop := ltLower b a = false

theorem insertLower_sorted (x : String) (l : List String)
    (h : l.Sorted LeLower) : (insertLower x l).Sorted LeLower := by
  induction l with
  | nil => simp [insertLower, List.Sorted]
  | cons y ys ih =>
    rw [List.sorted_cons] at h
    obtain ⟨hy, hys⟩ := h
    unfold insertLower
    by_cases hc : ltLower y x = true
    · rw [if_pos hc, List.sorted_cons]
      refine ⟨?_, ih hys⟩
      intro b hb
      have hb' := (insertLower_perm x ys).mem_iff.mp hb
      rcases List.mem_cons.mp hb' with rfl | hb''
      · exact ltCharsB_asymm _ _ hc
      · exact hy b hb''
    · have hc' : ltLower y x = false := by simpa using hc
      rw [if_neg hc, List.sorted_cons]
      constructor
      · intro b hb
        rcases List.mem_cons.mp hb with rfl | hb'
        · exact hc'
        · exact ltCharsB_le_trans _ _ _ hc' (hy b hb')
      · rw [List.sorted_cons]
        exact ⟨hy, hys⟩

theorem sortByLower_sorted (l : List String) : (sortByLower l).Sorted LeLower := by
  induction l with
  | nil => simp [sortByLower, List.Sorted]
  | cons x xs ih => exact insertLower_sorted x (sortByLower xs) ih

/-! ### Helper lemmas: `chunked` -/

theorem chunkedAux_flatten (size : Nat) (hsize : 0 < size) :
    ∀ fuel seq, seq.length ≤ fuel → (chunkedAux size fuel seq).flatten = seq := by
  intro fuel
  induction fuel with
  | zero =>
    intro seq hlen
    have : seq = [] := List.eq_nil_of_length_eq_zero (Nat.le_zero.mp hlen)
    subst this
    simp [chunkedAux]
  | succ n ih =>
    intro seq hlen
    cases seq with
    | nil => simp [chunkedAux]
    | cons a rest =>
      simp only [chunkedAux, List.flatten]
      rw [ih ((a :: rest).drop size) ?_]
      · exact List.take_append_drop size (a :: rest)
      · rw [List.length_drop]
        simp only [List.length_cons] at hlen ⊢
        omega

theorem chunkedAux_mem_subset (size : Nat) :
    ∀ fuel seq c, c ∈ chunkedAux size fuel seq → ∀ x ∈ c, x ∈ seq := by
  intro fuel
  induction fuel with
  | zero => intro seq c hc; simp [chunkedAux] at hc
  | succ n ih =>
    intro seq c hc x hx
    cases seq with
    | nil => simp [chunkedAux] at hc
    | cons a rest =>
      simp only [chunkedAux, List.mem_cons] at hc
      rcases hc with rfl | hc
      · exact List.take_subset size (a :: rest) hx
      · exact List.drop_subset size (a :: rest) (ih ((a :: rest).drop size) c hc x hx)

theorem chunkedAux_sizes (size : Nat) :
    ∀ fuel seq c, c ∈ chunkedAux size fuel seq → c.length ≤ size := by
  intro fuel
  induction fuel with
  | zero => intro seq c hc; simp [chunkedAux] at hc
  | succ n ih =>
    intro seq c hc
    cases seq with
    | nil => simp [chunkedAux] at hc
    | cons a rest =>
      simp only [chunkedAux, List.mem_cons] at hc
      rcases hc with rfl | hc
      · exact List.length_take_le size (a :: rest)
      · exact ih ((a :: rest).drop size) c hc

theorem chunkedAux_length (size : Nat) (hsize : 0 < size) :
    ∀ fuel seq, seq.length ≤ fuel →
      (chunkedAux size fuel seq).length = (seq.length + (size - 1)) / size := by
  intro fuel
  induction fuel with
  | zero =>
    intro seq hlen
    have h0 : seq = [] := List.eq_nil_of_length_eq_zero (Nat.le_zero.mp hlen)
    subst h0
    have hz : (size - 1) / size = 0 := Nat.div_eq_of_lt (by omega)
    simp [chunkedAux, hz]
  | succ n ih =>
    intro seq hlen
    cases seq with
    | nil =>
      have hz : (size - 1) / size = 0 := Nat.div_eq_of_lt (by omega)
      simp [chunkedAux, hz]
    | cons a rest =>
      simp only [chunkedAux, List.length_cons]
      rw [ih ((a :: rest).drop size)
        (by rw [List.length_drop]; simp only [List.length_cons] at hlen ⊢; omega)]
      rw [List.length_drop]
      simp only [List.length_cons]
      rcases Nat.lt_or_ge rest.length size with hlt | hge
      · have h1 : rest.length + 1 - size = 0 := by omega
        rw [h1]
        have h2 : (0 + (size - 1)) / size = 0 := Nat.div_eq_of_lt (by omega)
        have h3 : (rest.length + 1 + (size - 1)) / size = 1 :=
          Nat.div_eq_of_lt_le (by omega) (by omega)
        rw [h2, h3]
      · have h1 : rest.length + 1 - size + (size - 1) + size
            = rest.length + 1 + (size - 1) := by omega
        have h2 : (rest.length + 1 + (size - 1)) / size
            = (rest.length + 1 - size + (size - 1)) / size + 1 := by
          rw [← h1]
          exact Nat.add_div_right _ hsize
        rw [h2]

theorem chunked_flatten (names : List String) :
    (chunked names BATCH_LIMIT).flatten = names := by
  unfold chunked BATCH_LIMIT
  rw [if_neg (by omega)]
  exact chunkedAux_flatten 75 (by omega) names.length names (Nat.le_refl _)

theorem chunked_mem_subset (names : List String) (c : List String)
    (hc : c ∈ chunked names BATCH_LIMIT) : ∀ x ∈ c, x ∈ names := by
  unfold chunked BATCH_LIMIT at hc
  rw [if_neg (by omega)] at hc
  exact chunkedAux_mem_subset 75 names.length names c hc

theorem chunked_sizes (names : List String) (c : List String)
    (hc : c ∈ chunked names BATCH_LIMIT) : c.length ≤ BATCH_LIMIT := by
  have hc' : c ∈ chunkedAux 75 names.length names := by
    unfold chunked BATCH_LIMIT at hc
    rw [if_neg (by omega)] at hc
    exact hc
  have h := chunkedAux_sizes 75 names.length names c hc'
  simpa [BATCH_LIMIT] using h

theorem chunked_length (names : List String) :
    (chunked names BATCH_LIMIT).length = (names.length + 74) / 75 := by
  unfold chunked BATCH_LIMIT
  rw [if_neg (by omega)]
  exact chunkedAux_length 75 (by omega) names.length names (Nat.le_refl _)

/-! ### Helper lemmas: `fetch_batch` and `fetch_all` -/

theorem fetchBatchAux_success_src (provider : Provider) (payload : List String)
    (retries : Nat) :
    ∀ fuel attempt k body,
      (fetchBatchAux provider payload retries fuel attempt k).result = .success body →
      ∃ j status ra, provider payload j = .resp status ra body := by
  intro fuel
  induction fuel with
  | zero => intro attempt k body h; simp [fetchBatchAux] at h
  | succ n ih =>
    intro attempt k body h
    rw [fetchBatchAux] at h
    cases hpk : provider payload k with
    | netErr =>
      rw [hpk] at h
      by_cases ha : attempt = retries
      · simp [ha] at h
      · simp only [ha, if_false] at h
        exact ih (attempt + 1) (k + 1) body h
    | resp status ra body' =>
      rw [hpk] at h
      by_cases h429 : status = 429
      · simp only [h429, if_true, if_pos] at h
        cases hp : pyInt (ra.getD "1") with
        | none => rw [hp] at h; simp at h
        | some v =>
          rw [hp] at h
          simp only at h
          exact ih (attempt + 1) (k + 1) body h
      · by_cases h400 : 400 ≤ status
        · simp only [h429, if_false, h400, if_true] at h
          by_cases ha : attempt = retries
          · simp [ha] at h
          · simp only [ha, if_false] at h
            exact ih (attempt + 1) (k + 1) body h
        · simp only [h429, if_false, h400] at h
          simp only [FBResult.success.injEq] at h
          subst h
          exact ⟨k, status, ra, hpk⟩

theorem fetchBatch_success_src (provider : Provider) (payload : List String)
    (retries k : Nat) (body : CollResp)
    (h : (fetchBatch provider payload retries k).result = .success body) :
    ∃ j status ra, provider payload j = .resp status ra body :=
  fetchBatchAux_success_src provider payload retries (retries + 1) 0 k body h

theorem processBatch_unresolved_sub (provider : Provider)
    (echo : ∀ p k n, n ∈ notFoundNames (provider p k) → n ∈ p)
    (st : FAState) (batch : List String) (st' : FAState)
    (h : processBatch provider st batch = .ok st')
    (S : List String)
    (hst : ∀ x ∈ st.unresolved, x ∈ S) (hb : ∀ x ∈ batch, x ∈ S) :
    ∀ x ∈ st'.unresolved, x ∈ S := by
  simp only [processBatch] at h
  split at h
  · rename_i body hfb
    split at h
    · exact absurd h (by simp)
    · rename_i results2 k2 reqs2 heq
      simp only [Except.ok.injEq] at h
      subst h
      intro x hx
      simp only at hx
      rcases (dedupAppendInto_mem _ _ x).mp hx with hx' | hx'
      · exact hst x hx'
      · have hxnf : x ∈ body.notFound := List.mem_of_mem_filter hx'
        obtain ⟨j, status, ra, hj⟩ :=
          fetchBatch_success_src provider batch 4 st.k body hfb
        have hmem : x ∈ notFoundNames (provider batch j) := by
          rw [hj]; exact hxnf
        exact hb x (echo batch j x hmem)
  · simp at h

theorem fetchAllGo_unresolved_sub (provider : Provider)
    (echo : ∀ p k n, n ∈ notFoundNames (provider p k) → n ∈ p)
    (S : List String) :
    ∀ batches st st', fetchAllGo provider batches st = .ok st' →
      (∀ x ∈ st.unresolved, x ∈ S) → (∀ b ∈ batches, ∀ x ∈ b, x ∈ S) →
      ∀ x ∈ st'.unresolved, x ∈ S := by
  intro batches
  induction batches with
  | nil =>
    intro st st' h hst _
    unfold fetchAllGo at h
    simp only [Except.ok.injEq] at h
    subst h
    exact hst
  | cons b bs ih =>
    intro st st' h hst hbs
    unfold fetchAllGo at h
    cases hpb : processBatch provider st b with
    | error e => rw [hpb] at h; simp at h
    | ok st1 =>
      rw [hpb] at h
      simp only at h
      have h1 := processBatch_unresolved_sub provider echo st b st1 hpb S hst
        (hbs b (List.mem_cons_self b bs))
      exact ih st1 st' h h1 (fun c hc => hbs c (List.mem_cons_of_mem b hc))

theorem fetchAll_unresolved_sub (provider : Provider)
    (echo : ∀ p k n, n ∈ notFoundNames (provider p k) → n ∈ p)
    (names : List String) (fa : FAOut) (h : fetchAll provider names = .ok fa) :
    ∀ x ∈ fa.unresolvedSorted, x ∈ names := by
  unfold fetchAll at h
  cases hgo : fetchAllGo provider (chunked names BATCH_LIMIT) ⟨[], [], 0, []⟩ with
  | error e => rw [hgo] at h; simp at h
  | ok st =>
    rw [hgo] at h
    simp only [Except.ok.injEq] at h
    subst h
    intro x hx
    simp only at hx
    have hx' := (sortByLower_mem st.unresolved x).mp hx
    exact fetchAllGo_unresolved_sub provider echo names
      (chunked names BATCH_LIMIT) ⟨[], [], 0, []⟩ st hgo
      (by intro y hy; simp at hy)
      (fun b hb => chunked_mem_subset names b hb) x hx'

/-! ### Helper lemmas: the output-ordering loop of `main` -/

theorem orderedStep_mapped_eq (lowerMap : List (String × Card)) (s : LoopState)
    (a : String) :
    (orderedStep lowerMap s a).mapped =
      match resolveInputName lowerMap a with
      | none => s.mapped
      | some _ => insertAbsent s.mapped a := by
  unfold orderedStep
  cases resolveInputName lowerMap a <;> rfl

theorem orderedStep_mapped_mono (lowerMap : List (String × Card)) (s : LoopState)
    (a x : String) (hx : x ∈ s.mapped) : x ∈ (orderedStep lowerMap s a).mapped := by
  rw [orderedStep_mapped_eq]
  cases resolveInputName lowerMap a with
  | none => exact hx
  | some card => exact (insertAbsent_mem _ _ _).mpr (Or.inl hx)

theorem foldl_orderedStep_mapped_mono (lowerMap : List (String × Card)) :
    ∀ (seq : List String) (s : LoopState) (x : String), x ∈ s.mapped →
      x ∈ (seq.foldl (orderedStep lowerMap) s).mapped := by
  intro seq
  induction seq with
  | nil => intro s x hx; exact hx
  | cons a as ih =>
    intro s x hx
    simp only [List.foldl_cons]
    exact ih (orderedStep lowerMap s a) x (orderedStep_mapped_mono lowerMap s a x hx)

theorem orderedStep_mapped_self (lowerMap : List (String × Card)) (s : LoopState)
    (a : String) (ha : (resolveInputName lowerMap a).isSome) :
    a ∈ (orderedStep lowerMap s a).mapped := by
  rw [orderedStep_mapped_eq]
  cases hr : resolveInputName lowerMap a with
  | none => rw [hr] at ha; simp at ha
  | some card => exact (insertAbsent_mem _ _ _).mpr (Or.inr rfl)

theorem foldl_orderedStep_mapped_complete (lowerMap : List (String × Card)) :
    ∀ (seq : List String) (s : LoopState) (x : String),
      x ∈ seq → (resolveInputName lowerMap x).isSome →
      x ∈ (seq.foldl (orderedStep lowerMap) s).mapped := by
  intro seq
  induction seq with
  | nil => intro s x hx; simp at hx
  | cons a as ih =>
    intro s x hx hres
    simp only [List.foldl_cons]
    rcases List.mem_cons.mp hx with rfl | hx'
    · exact foldl_orderedStep_mapped_mono lowerMap as (orderedStep lowerMap s x) x
        (orderedStep_mapped_self lowerMap s x hres)
    · exact ih (orderedStep lowerMap s a) x hx' hres

theorem orderedStep_mapped_sound (lowerMap : List (String × Card)) (s : LoopState)
    (a x : String) (hx : x ∈ (orderedStep lowerMap s a).mapped) :
    x ∈ s.mapped ∨ (x = a ∧ (resolveInputName lowerMap x).isSome) := by
  rw [orderedStep_mapped_eq] at hx
  cases hr : resolveInputName lowerMap a with
  | none => rw [hr] at hx; exact Or.inl hx
  | some card =>
    rw [hr] at hx
    rcases (insertAbsent_mem _ _ _).mp hx with h' | rfl
    · exact Or.inl h'
    · exact Or.inr ⟨rfl, by rw [hr]; rfl⟩

theorem foldl_orderedStep_mapped_sound (lowerMap : List (String × Card)) :
    ∀ (seq : List String) (s : LoopState) (x : String),
      x ∈ (seq.foldl (orderedStep lowerMap) s).mapped →
      x ∈ s.mapped ∨ (x ∈ seq ∧ (resolveInputName lowerMap x).isSome) := by
  intro seq
  induction seq with
  | nil => intro s x hx; exact Or.inl hx
  | cons a as ih =>
    intro s x hx
    simp only [List.foldl_cons] at hx
    rcases ih (orderedStep lowerMap s a) x hx with h' | ⟨hmem, hres⟩
    · rcases orderedStep_mapped_sound lowerMap s a x h' with h'' | ⟨rfl, hres⟩
      · exact Or.inl h''
      · exact Or.inr ⟨List.mem_cons_self _ _, hres⟩
    · exact Or.inr ⟨List.mem_cons_of_mem a hmem, hres⟩

/-- The at-most-once-per-id loop invariant: every truthy id in the emitted
list has been recorded in `seenIds`, and an id outside `seenIds` has not been
emitted at all. -/
def IdInv (s : LoopState) : Prop :=
  ∀ t : String, t ≠ "" →
    ((s.ordered.filter (fun c => c.id == some t)).length ≤ 1 ∧
      (t ∉ s.seenIds → (s.ordered.filter (fun c => c.id == some t)).length = 0))

theorem filter_id_append_single (l : List Card) (card : Card) (t : String)
    (hf : (card.id == some t) = false) :
    ((l ++ [card]).filter (fun c => c.id == some t)).length
      = (l.filter (fun c => c.id == some t)).length := by
  rw [List.filter_append]
  simp [List.filter_cons, hf]

theorem seenNext_some (s : LoopState) (card : Card) (cid : String)
    (hid : card.id = some cid) :
    seenNext s card =
      if cid == "" then s.seenIds
      else if s.seenIds.contains cid then s.seenIds
      else insertAbsent s.seenIds cid := by
  unfold seenNext
  rw [hid]

theorem shouldSkip_some (s : LoopState) (card : Card) (cid : String)
    (hid : card.id = some cid) :
    shouldSkip s card = (!(cid == "") && s.seenIds.contains cid) := by
  unfold shouldSkip
  rw [hid]

theorem orderedStep_idinv (lowerMap : List (String × Card)) (s : LoopState)
    (a : String) (h : IdInv s) : IdInv (orderedStep lowerMap s a) := by
  unfold orderedStep
  cases hr : resolveInputName lowerMap a with
  | none => exact h
  | some card =>
    intro t ht
    obtain ⟨h1, h2⟩ := h t ht
    simp only
    cases hid : card.id with
    | none =>
      have hskip : shouldSkip s card = false := by simp [shouldSkip, hid]
      have hseen : seenNext s card = s.seenIds := by simp [seenNext, hid]
      have hf : (card.id == some t) = false := by simp [hid]
      rw [hseen]
      unfold emitList
      rw [hskip]
      simp only [Bool.false_eq_true, if_false]
      rw [filter_id_append_single s.ordered card t hf]
      exact ⟨h1, h2⟩
    | some cid =>
      by_cases hempty : cid == ""
      · have hcid : cid = "" := by simpa using hempty
        have hskip : shouldSkip s card = false := by simp [shouldSkip, hid, hcid]
        have hseen : seenNext s card = s.seenIds := by simp [seenNext, hid, hcid]
        have hf : (card.id == some t) = false := by
          subst hcid
          simp [hid]
          exact fun hq => absurd hq.symm ht
        rw [hseen]
        unfold emitList
        rw [hskip]
        simp only [Bool.false_eq_true, if_false]
        rw [filter_id_append_single s.ordered card t hf]
        exact ⟨h1, h2⟩
      · by_cases hseen0 : s.seenIds.contains cid
        · have hskip : shouldSkip s card = true := by
            rw [shouldSkip_some s card cid hid, Bool.and_eq_true]
            exact ⟨by simpa using hempty, hseen0⟩
          have hseen : seenNext s card = s.seenIds := by
            rw [seenNext_some s card cid hid, if_neg hempty, if_pos hseen0]
          rw [hseen]
          unfold emitList
          rw [hskip]
          simp only [if_true]
          exact ⟨h1, h2⟩
        · have hskip : shouldSkip s card = false := by
            have hc : s.seenIds.contains cid = false := by simpa using hseen0
            rw [shouldSkip_some s card cid hid, hc, Bool.and_false]
          have hseen : seenNext s card = insertAbsent s.seenIds cid := by
            rw [seenNext_some s card cid hid, if_neg hempty, if_neg hseen0]
          rw [hseen]
          unfold emitList
          rw [hskip]
          simp only [Bool.false_eq_true, if_false]
          by_cases hteq : cid = t
          · subst hteq
            have hnm : cid ∉ s.seenIds := fun hmm => hseen0 (List.elem_eq_true_of_mem hmm)
            have hzero := h2 hnm
            constructor
            · rw [List.filter_append, List.length_append, hzero]
              simp [List.filter_cons, hid]
            · intro hmem
              exact absurd ((insertAbsent_mem _ _ _).mpr (Or.inr rfl)) hmem
          · have hf : (card.id == some t) = false := by
              simp [hid]
              exact fun hq => absurd hq hteq
            rw [filter_id_append_single s.ordered card t hf]
            refine ⟨h1, ?_⟩
            intro hmem
            apply h2
            intro hmm
            exact hmem ((insertAbsent_mem _ _ _).mpr (Or.inl hmm))

theorem foldl_orderedStep_idinv (lowerMap : List (String × Card)) :
    ∀ (seq : List String) (s : LoopState),
      IdInv s → IdInv (seq.foldl (orderedStep lowerMap) s) := by
  intro seq
  induction seq with
  | nil => intro s h; exact h
  | cons a as ih =>
    intro s h
    simp only [List.foldl_cons]
    exact ih (orderedStep lowerMap s a) (orderedStep_idinv lowerMap s a h)

/-! ### Helper lemmas: the request count under an always-successful provider -/

theorem fetchBatch_happy (payload : List String) (k : Nat) :
    fetchBatch happyProvider payload 4 k
      = ⟨.success ⟨[], []⟩, k + 1, [payload], []⟩ := rfl

theorem processBatch_happy (st : FAState) (batch : List String) :
    processBatch happyProvider st batch
      = .ok ⟨st.results, st.unresolved, st.k + 1, st.reqs ++ [batch]⟩ := rfl

theorem fetchAllGo_happy :
    ∀ (bs : List (List String)) (st : FAState),
      fetchAllGo happyProvider bs st
        = .ok ⟨st.results, st.unresolved, st.k + bs.length, st.reqs ++ bs⟩ := by
  intro bs
  induction bs with
  | nil =>
    intro st
    simp [fetchAllGo]
  | cons b rest ih =>
    intro st
    unfold fetchAllGo
    rw [processBatch_happy]
    simp only
    rw [ih ⟨st.results, st.unresolved, st.k + 1, st.reqs ++ [b]⟩]
    simp only [Except.ok.injEq, FAState.mk.injEq, List.length_cons, List.append_assoc,
      List.singleton_append, true_and, and_true]
    omega

theorem fetchAll_happy (names : List String) :
    fetchAll happyProvider names
      = .ok ⟨[], [], (chunked names BATCH_LIMIT).length, chunked names BATCH_LIMIT⟩ := by
  unfold fetchAll
  rw [fetchAllGo_happy]
  simp [sortByLower]

theorem chunkedAux_nil (size fuel : Nat) : chunkedAux size fuel [] = [] := by
  cases fuel <;> rfl

theorem chunkedAux_cons_eq (size fuel : Nat) (l : List String) (hl : l ≠ []) :
    chunkedAux size (fuel + 1) l = l.take size :: chunkedAux size fuel (l.drop size) := by
  cases l with
  | nil => exact absurd rfl hl
  | cons a r => rfl

theorem chunked_of_length_75 (names : List String) (h : names.length = 75) :
    chunked names BATCH_LIMIT = [names] := by
  unfold chunked BATCH_LIMIT
  rw [if_neg (by omega), h]
  have hne : names ≠ [] := by
    intro h0
    rw [h0] at h
    simp at h
  rw [show chunkedAux 75 75 names = names.take 75 :: chunkedAux 75 74 (names.drop 75) from
    chunkedAux_cons_eq 75 74 names hne]
  have ht : names.take 75 = names := List.take_of_length_le (by omega)
  have hd : names.drop 75 = [] := List.drop_eq_nil_of_le (by omega)
  rw [ht, hd, chunkedAux_nil]

theorem chunked_of_length_76 (names : List String) (h : names.length = 76) :
    (chunked names BATCH_LIMIT).map List.length = [75, 1] := by
  unfold chunked BATCH_LIMIT
  rw [if_neg (by omega), h]
  have hne : names ≠ [] := by
    intro h0
    rw [h0] at h
    simp at h
  rw [show chunkedAux 75 76 names = names.take 75 :: chunkedAux 75 75 (names.drop 75) from
    chunkedAux_cons_eq 75 75 names hne]
  have hdlen : (names.drop 75).length = 1 := by
    rw [List.length_drop, h]
  have hdne : names.drop 75 ≠ [] := by
    intro h0
    rw [h0] at hdlen
    simp at hdlen
  rw [show chunkedAux 75 75 (names.drop 75)
      = (names.drop 75).take 75 :: chunkedAux 75 74 ((names.drop 75).drop 75) from
    chunkedAux_cons_eq 75 74 (names.drop 75) hdne]
  have ht : (names.drop 75).take 75 = names.drop 75 :=
    List.take_of_length_le (by rw [hdlen]; omega)
  have hd2 : (names.drop 75).drop 75 = [] :=
    List.drop_eq_nil_of_le (by rw [hdlen]; omega)
  rw [ht, hd2, chunkedAux_nil]
  simp only [List.map_cons, List.map_nil, List.length_take, h, hdlen]
  norm_num

/-! ### The claims -/

/-- Claim C8: for a deduplicated input of `n` names, resolution issues exactly
`ceil(n / 75)` primary collection-lookup requests, each carrying at most 75
identifiers, and the requests' payloads concatenated in order equal the
input; a batch of exactly 75 names gives one request, 76 give two requests of
sizes 75 and 1. -/
theorem C8_theorem (names : List String) :
    fetchAll happyProvider names
        = .ok ⟨[], [], (chunked names BATCH_LIMIT).length, chunked names BATCH_LIMIT⟩
    ∧ (chunked names BATCH_LIMIT).length = (names.length + 74) / 75
    ∧ (∀ c ∈ chunked names BATCH_LIMIT, c.length ≤ 75)
    ∧ (chunked names BATCH_LIMIT).flatten = names
    ∧ (names.length = 75 → chunked names BATCH_LIMIT = [names])
    ∧ (names.length = 76 → (chunked names BATCH_LIMIT).map List.length = [75, 1]) := by
  refine ⟨fetchAll_happy names, chunked_length names, ?_, chunked_flatten names,
    chunked_of_length_75 names, chunked_of_length_76 names⟩
  intro c hc
  exact chunked_sizes names c hc

/-- Witness for C8 at concrete inputs of 75 and 76 names. -/
theorem C8_witness :
    chunked (List.replicate 75 "n") BATCH_LIMIT = [List.replicate 75 "n"]
    ∧ (chunked (List.replicate 76 "n") BATCH_LIMIT).map List.length = [75, 1] :=
  ⟨(C8_theorem (List.replicate 75 "n")).2.2.2.2.1 (by simp),
   (C8_theorem (List.replicate 76 "n")).2.2.2.2.2 (by simp)⟩

/-- Claim C3: with the default retry bound, four consecutive network-level
failures followed by a success return the decoded body on the fifth attempt
having backed off four times, while five consecutive network-level failures
exhaust the budget and exit the process with status 3, distinct from the
input-validation exit status 2 of `read_names`. -/
theorem C3_theorem (provider : Provider) (payload : List String) (body : CollResp) :
    ((∀ i, i < 4 → provider payload i = .netErr) →
      provider payload 4 = .resp 200 none body →
      fetchBatch provider payload 4 0
        = ⟨.success body, 5, [payload, payload, payload, payload, payload],
            [.backoffExp 0, .backoffExp 1, .backoffExp 2, .backoffExp 3]⟩)
    ∧ ((∀ i, i ≤ 4 → provider payload i = .netErr) →
        (fetchBatch provider payload 4 0).result = .sysExit 3)
    ∧ readNames none = .exit 2 ∧ (3 : Nat) ≠ 2 := by
  refine ⟨?_, ?_, rfl, by omega⟩
  · intro h4 h200
    have e0 := h4 0 (by omega)
    have e1 := h4 1 (by omega)
    have e2 := h4 2 (by omega)
    have e3 := h4 3 (by omega)
    unfold fetchBatch
    simp [fetchBatchAux, e0, e1, e2, e3, h200]
  · intro h5
    have e0 := h5 0 (by omega)
    have e1 := h5 1 (by omega)
    have e2 := h5 2 (by omega)
    have e3 := h5 3 (by omega)
    have e4 := h5 4 (by omega)
    unfold fetchBatch
    simp [fetchBatchAux, e0, e1, e2, e3, e4]

/-- Witness for C3: four network errors then a success succeed; five network
errors exit with status 3. -/
theorem C3_witness :
    fetchBatch provNet4 ["Island"] 4 0
        = ⟨.success ⟨[islandCard], []⟩, 5,
            [["Island"], ["Island"], ["Island"], ["Island"], ["Island"]],
            [.backoffExp 0, .backoffExp 1, .backoffExp 2, .backoffExp 3]⟩
    ∧ (fetchBatch provNetAll ["Island"] 4 0).result = .sysExit 3 :=
  ⟨(C3_theorem provNet4 ["Island"] ⟨[islandCard], []⟩).1
      (fun i hi => by simp [provNet4, hi]) (by simp [provNet4]),
   (C3_theorem provNetAll ["Island"] ⟨[], []⟩).2.1 (fun i _ => rfl)⟩

/-- Claim C2, evaluated at its failing input: a 429 response consumes an
iteration of the attempt loop, so five consecutive 429s followed by a 200
reach the `raise RuntimeError("Unreachable")` line in the batch path instead
of succeeding, and leave the `page` variable unassigned in the pagination
path; four consecutive 429s still succeed, waiting `max(1, Retry-After)`
between attempts. -/
theorem C2_theorem :
    (fetchBatch prov429x5 ["Island"] 4 0).result = .unreachable
    ∧ (fetchBatch prov429x4 ["Island"] 4 0).result = .success ⟨[islandCard], []⟩
    ∧ (fetchBatch prov429x4 ["Island"] 4 0).sleeps
        = [.rateWait 1, .rateWait 1, .rateWait 1, .rateWait 1]
    ∧ (streamCards sprov429 "q" "cards" 3).outcome = .nameError := by
  refine ⟨by decide, by decide, by decide, by decide⟩

/-- Claim C7 counterexample: a 429 whose Retry-After header is present but
not an integer string does not produce a 1-second pause and a retry; the
`int()` call raises an uncaught ValueError in both paths, with no sleep. -/
theorem C7_counterexample :
    (fetchBatch prov429Soon ["Island"] 4 0).result = .valueError
    ∧ (fetchBatch prov429Soon ["Island"] 4 0).sleeps = []
    ∧ (pageFetch sprovSoon (.plain "u") 0).result = .valueError := by
  refine ⟨by decide, by decide, by decide⟩

/-- Claim C7 (amended): after a 429, the pause before the next attempt is
`max(1, int(Retry-After))` — at least one second — with the header value
defaulting to `"1"` only when the header is absent; a present but unparseable
header instead raises an uncaught ValueError (no pause, no retry), in both
the batch and the pagination paths. -/
theorem C7_theorem (ra : Option String) (body : CollResp) (p : Page) :
    (∀ v : Int, pyInt (ra.getD "1") = some v →
      fetchBatch (fun _ k => if k = 0 then .resp 429 ra ⟨[], []⟩ else .resp 200 none body)
          ["n"] 4 0
        = ⟨.success body, 2, [["n"], ["n"]], [.rateWait (max 1 v)]⟩ ∧ (1 : Int) ≤ max 1 v)
    ∧ (pyInt (ra.getD "1") = none →
      (fetchBatch (fun _ k => if k = 0 then .resp 429 ra ⟨[], []⟩ else .resp 200 none body)
          ["n"] 4 0).result = .valueError)
    ∧ (∀ v : Int, pyInt (ra.getD "1") = some v →
      pageFetch (fun _ k => if k = 0 then .resp 429 ra ⟨[], false, none⟩ else .resp 200 none p)
          (.plain "u") 0
        = ⟨.page p, 2, [.plain "u", .plain "u"], [.rateWait (max 1 v)]⟩)
    ∧ (pyInt (ra.getD "1") = none →
      (pageFetch (fun _ k => if k = 0 then .resp 429 ra ⟨[], false, none⟩ else .resp 200 none p)
          (.plain "u") 0).result = .valueError)
    ∧ pyInt ((none : Option String).getD "1") = some 1 := by
  refine ⟨?_, ?_, ?_, ?_, by decide⟩
  · intro v hv
    constructor
    · unfold fetchBatch
      simp [fetchBatchAux, hv]
    · exact le_max_left 1 v
  · intro hv
    unfold fetchBatch
    simp [fetchBatchAux, hv]
  · intro v hv
    unfold pageFetch
    simp [pageFetchAux, hv]
  · intro hv
    unfold pageFetch
    simp [pageFetchAux, hv]

/-- Witness for C7: a parseable Retry-After of 2 seconds pauses 2 seconds and
retries; an unparseable one raises. -/
theorem C7_witness :
    (fetchBatch (fun _ k => if k = 0 then HResp.resp 429 (some "2") ⟨[], []⟩
          else HResp.resp 200 none ⟨[islandCard], []⟩) ["n"] 4 0
        = ⟨.success ⟨[islandCard], []⟩, 2, [["n"], ["n"]], [.rateWait 2]⟩ ∧ (1 : Int) ≤ max 1 2)
    ∧ (fetchBatch (fun _ k => if k = 0 then HResp.resp 429 (some "soon") ⟨[], []⟩
          else HResp.resp 200 none ⟨[islandCard], []⟩) ["n"] 4 0).result = .valueError :=
  ⟨(C7_theorem (some "2") ⟨[islandCard], []⟩ ⟨[], false, none⟩).1 2 (by decide),
   (C7_theorem (some "soon") ⟨[islandCard], []⟩ ⟨[], false, none⟩).2.1 (by decide)⟩

/-- Claim C5 counterexample: two front-face candidates differing only in
letter case survive deduplication as two distinct retry identifiers (the
`set(...)` dedup is case-sensitive), not one. -/
theorem C5_counterexample :
    fetchAll provFire ["Fire // Ice", "FIRE // ICE"]
        = .ok ⟨[], ["Fire // Ice", "FIRE // ICE"], 2,
            [["Fire // Ice", "FIRE // ICE"], ["Fire", "FIRE"]]⟩
    ∧ lowerStr "Fire" = lowerStr "FIRE"
    ∧ ["Fire", "FIRE"].length = 2 := by
  refine ⟨rfl, by decide, rfl⟩

/-- Claim C5 (amended): the accumulated front-face retry candidates are
deduplicated case-sensitively (by exact string identity, so case variants
stay distinct), sorted case-insensitively, and issued through the same
partition-and-request path: the sort is a permutation of the exact-string
dedup, duplicate-free, ordered by the case-folded comparison, keeps exactly
the candidate strings, and the retry request issued is exactly one
`BATCH_LIMIT`-chunk of that sorted list. -/
theorem C5_theorem (ffr : List String) :
    (sortByLower (dedupFirst ffr)).Perm (dedupFirst ffr)
    ∧ (dedupFirst ffr).Nodup
    ∧ (sortByLower (dedupFirst ffr)).Sorted LeLower
    ∧ (∀ x, x ∈ sortByLower (dedupFirst ffr) ↔ x ∈ ffr)
    ∧ fetchAll provFire ["Fire // Ice", "FIRE // ICE"]
        = .ok ⟨[], ["Fire // Ice", "FIRE // ICE"], 2,
            [["Fire // Ice", "FIRE // ICE"],
              sortByLower (dedupFirst (frontFaceCandidates ["Fire // Ice", "FIRE // ICE"]))]⟩ := by
  refine ⟨sortByLower_perm (dedupFirst ffr), dedupFirst_nodup ffr,
    sortByLower_sorted (dedupFirst ffr), ?_, rfl⟩
  intro x
  rw [sortByLower_mem, dedupFirst_mem]

/-- Claim C4 counterexample: the composite not-found name `"  // B"` (empty
front face after stripping) has a mapping key equal to it case-insensitively,
yet the batch yields no front-face retry candidate, the resolved-by-retry
check is skipped, and the name is classified unresolved. -/
theorem C4_counterexample :
    containsSep "  // B" = true
    ∧ fetchAll provEmptyFront ["  // B"]
        = .ok ⟨[("  // B", emptyFrontCard)], ["  // B"], 1, [["  // B"]]⟩
    ∧ lowerStr "  // B" = lowerStr "  // B"
    ∧ frontFaceCandidates ["  // B"] = [] := by
  refine ⟨by decide, rfl, rfl, by decide⟩

/-- Claim C4 (amended): when the batch produced at least one front-face retry
candidate, a not-found name is classified resolved-by-retry exactly when some
key of the accumulated mapping equals the whole original string
case-insensitively (so in particular not merely its front-face substring);
when the batch produced no candidate the check is skipped entirely.  The
Delver scenario holds: the composite reported not found whose front-face
retry returns a record named by the exact composite ends mapped with nothing
unresolved, while a retry returning only the bare front-face name leaves the
composite unresolved. -/
theorem C4_theorem :
    (∀ (results : List (String × Card)) (nfNames : List String) (original : String),
      frontFaceCandidates nfNames ≠ [] →
      (original ∈ resolvedByRetrySet results nfNames ↔
        original ∈ nfNames
          ∧ results.any (fun p => lowerStr p.1 == lowerStr original) = true))
    ∧ mainRun provDelver [delverName] false = .ok delverRunOut
    ∧ delverRunOut.combinedUnresolved = []
    ∧ delverName ∈ delverRunOut.mappedNames
    ∧ fetchAll provFrontOnly [delverName]
        = .ok ⟨[("Delver of Secrets", frontFaceCard)], [delverName], 2,
            [[delverName], ["Delver of Secrets"]]⟩ := by
  refine ⟨?_, rfl, by decide, by decide, rfl⟩
  intro results nfNames original hne
  unfold resolvedByRetrySet
  rw [if_neg hne]
  exact List.mem_filter

/-- Witness for C4 at a batch with one composite not-found name whose retry
candidate list is non-empty. -/
theorem C4_witness :
    delverName ∈ resolvedByRetrySet [(delverName, delverCard)] [delverName] ↔
      delverName ∈ [delverName]
        ∧ [(delverName, delverCard)].any
            (fun p => lowerStr p.1 == lowerStr delverName) = true :=
  (C4_theorem).1 [(delverName, delverCard)] [delverName] delverName (by decide)

/-- Claim C6 counterexample: when a page's `next_page` equals the search
endpoint URL itself, the next fetch re-attaches the initial query parameters
instead of fetching the URL bare. -/
theorem C6_counterexample :
    (streamCards sprovLoop "qq" "cards" 3).reqs
      = [.withParams API_SEARCH "qq" "cards" "name",
          .withParams API_SEARCH "qq" "cards" "name"]
    ∧ (streamCards sprovLoop "qq" "cards" 3).reqs.getD 1 (.plain "")
        ≠ .plain API_SEARCH := by
  refine ⟨by decide, by decide⟩

/-- Claim C6 (amended): whenever `has_more` is true the next fetch targets
`next_page`, re-attaching the initial query parameters exactly when that URL
equals the search endpoint (bare otherwise), and the sequence terminates when
`has_more` is false: a 3-page run with `has_more = true, true, false` and
off-endpoint continuation URLs yields the three pages' records in provider
order with exactly 3 fetches and none after the third. -/
theorem C6_theorem (q u u2 u3 : String) (d1 d2 d3 : List Card)
    (h2 : u2 ≠ API_SEARCH) (h3 : u3 ≠ API_SEARCH) :
    streamCards (fun _ k =>
        if k = 0 then .resp 200 none ⟨d1, true, some u2⟩
        else if k = 1 then .resp 200 none ⟨d2, true, some u3⟩
        else .resp 200 none ⟨d3, false, none⟩) q u 4
      = ⟨.done, d1 ++ (d2 ++ d3), 3,
          [.withParams API_SEARCH q u "name", .plain u2, .plain u3]⟩ := by
  unfold streamCards
  simp [streamGo, pageFetch, pageFetchAux, h2, h3]

/-- Witness for C6 at a concrete 3-page response sequence. -/
theorem C6_witness :
    streamCards (fun _ k =>
        if k = 0 then .resp 200 none ⟨[streamCard1], true, some "u2"⟩
        else if k = 1 then .resp 200 none ⟨[], true, some "u3"⟩
        else .resp 200 none ⟨[streamCard3], false, none⟩) "q" "cards" 4
      = ⟨.done, [streamCard1] ++ ([] ++ [streamCard3]), 3,
          [.withParams API_SEARCH "q" "cards" "name", .plain "u2", .plain "u3"]⟩ :=
  C6_theorem "q" "cards" "u2" "u3" [streamCard1] [] [streamCard3]
    (by decide) (by decide)

/-- Claim C10: when all five attempts of the inner retry loop for one page
end without a successful decode (here: five consecutive 429s), control falls
out of the loop without assigning `page`: on the first page this reads the
unassigned local (a NameError distinct from the modelled error outcomes), and
on a later page it silently reuses the previous page, re-yielding its
records. -/
theorem C10_theorem :
    (streamCards sprov429 "q" "cards" 3).outcome = .nameError
    ∧ (streamCards sprov429 "q" "cards" 3).yielded = []
    ∧ (streamCards sprov429 "q" "cards" 3).k = 5
    ∧ StreamOutcome.nameError ≠ StreamOutcome.raised
    ∧ StreamOutcome.nameError ≠ StreamOutcome.valueError
    ∧ (streamCards sprovStale "q" "cards" 5).outcome = .done
    ∧ (streamCards sprovStale "q" "cards" 5).yielded
        = [streamCard1, streamCard1, streamCard3] := by
  refine ⟨by decide, by decide, by decide, by decide, by decide, by decide, by decide⟩

theorem contains_eq_false_of_not_mem (l : List String) (x : String) (h : x ∉ l) :
    l.contains x = false := by
  cases hc : l.contains x
  · rfl
  · exact absurd (List.mem_of_elem_eq_true hc) h

theorem mainRun_ok_inv (provider : Provider) (names : List String) (sortAlpha : Bool)
    (out : RunOut) (h : mainRun provider names sortAlpha = .ok out) :
    ∃ fa : FAOut, fetchAll provider names = .ok fa ∧
      out = ⟨fa.results, fa.unresolvedSorted,
        ((if sortAlpha then sortByLower (fa.results.map (fun p => p.1)) else names).foldl
          (orderedStep (mkLowerMap fa.results)) ⟨[], [], []⟩).ordered,
        ((if sortAlpha then sortByLower (fa.results.map (fun p => p.1)) else names).foldl
          (orderedStep (mkLowerMap fa.results)) ⟨[], [], []⟩).mapped,
        names.filter (fun n =>
          !(((if sortAlpha then sortByLower (fa.results.map (fun p => p.1)) else names).foldl
            (orderedStep (mkLowerMap fa.results)) ⟨[], [], []⟩).mapped.contains n)),
        dedupFirst (fa.unresolvedSorted ++ names.filter (fun n =>
          !(((if sortAlpha then sortByLower (fa.results.map (fun p => p.1)) else names).foldl
            (orderedStep (mkLowerMap fa.results)) ⟨[], [], []⟩).mapped.contains n))),
        fa.k, fa.reqs⟩ := by
  unfold mainRun at h
  split at h
  · simp at h
  · rename_i fa hfa
    refine ⟨fa, hfa, ?_⟩
    simp only [Except.ok.injEq] at h
    exact h.symm

/-- Claim C1 (amended): under the provider contract that `not_found` echoes
only requested identifiers, every name of the deduplicated input appears in
at least one of the two final classifications — the mapped set or the
reported unresolved list — and both classifications contain only input names,
so their union is exactly the deduplicated input; the two are however not
disjoint: a name can be both mapped (by the reassembly front-face heuristic)
and reported unresolved (by the record-level accounting). -/
theorem C1_theorem (provider : Provider) (names : List String) (out : RunOut)
    (echo : ∀ (p : List String) (k : Nat), ∀ n ∈ notFoundNames (provider p k), n ∈ p)
    (hrun : mainRun provider names false = .ok out) :
    ∀ n : String, (n ∈ out.mappedNames ∨ n ∈ out.combinedUnresolved) ↔ n ∈ names := by
  obtain ⟨fa, hfa, hout⟩ := mainRun_ok_inv provider names false out hrun
  subst hout
  intro n
  constructor
  · rintro (hm | hc)
    · rcases foldl_orderedStep_mapped_sound (mkLowerMap fa.results) names ⟨[], [], []⟩ n hm
        with h0 | ⟨hmem, _⟩
      · simp at h0
      · exact hmem
    · rcases List.mem_append.mp ((dedupFirst_mem _ n).mp hc) with h1 | h2
      · exact fetchAll_unresolved_sub provider echo names fa hfa n h1
      · exact List.mem_of_mem_filter h2
  · intro hn
    by_cases hres : (resolveInputName (mkLowerMap fa.results) n).isSome
    · exact Or.inl
        (foldl_orderedStep_mapped_complete (mkLowerMap fa.results) names ⟨[], [], []⟩ n hn hres)
    · refine Or.inr ((dedupFirst_mem _ n).mpr (List.mem_append_right _ ?_))
      refine List.mem_filter.mpr ⟨hn, ?_⟩
      have hnm : n ∉ (names.foldl (orderedStep (mkLowerMap fa.results)) ⟨[], [], []⟩).mapped := by
        intro hm
        rcases foldl_orderedStep_mapped_sound (mkLowerMap fa.results) names ⟨[], [], []⟩ n hm
          with h0 | ⟨_, hsome⟩
        · simp at h0
        · exact hres hsome
      show (!(names.foldl (orderedStep (mkLowerMap fa.results)) ⟨[], [], []⟩).mapped.contains n)
        = true
      rw [contains_eq_false_of_not_mem _ _ hnm]
      rfl

/-- Witness for C1 at a one-name input resolved in one batch. -/
theorem C1_witness :
    ("Island" ∈ islandRunOut.mappedNames ∨ "Island" ∈ islandRunOut.combinedUnresolved)
      ↔ "Island" ∈ ["Island"] :=
  C1_theorem provIsland ["Island"] islandRunOut
    (by intro p k n hn; simp [provIsland, notFoundNames] at hn) rfl "Island"

/-- Claim C1 counterexample: the input name `"A // B"` ends both mapped
(through the reassembly front-face prefix match on `"A // C"`) and in the
reported unresolved list, so the two classifications are not disjoint. -/
theorem C1_counterexample :
    mainRun provAB ["A // B"] false = .ok abRunOut
    ∧ "A // B" ∈ abRunOut.mappedNames
    ∧ "A // B" ∈ abRunOut.combinedUnresolved := by
  refine ⟨rfl, by decide, by decide⟩

/-- Claim C9: a record with a truthy provider id is emitted at most once even
when several input names resolve to it — later duplicates are dropped from
the output while their names still count as mapped — and a name appearing
twice in the raw input is deduplicated to a single line, yielding exactly one
output record. -/
theorem C9_theorem :
    (∀ (provider : Provider) (names : List String) (sortAlpha : Bool) (out : RunOut),
      mainRun provider names sortAlpha = .ok out →
      ∀ t : String, t ≠ "" →
        (out.orderedCards.filter (fun c => c.id == some t)).length ≤ 1)
    ∧ (∀ (provider : Provider) (names : List String) (out : RunOut),
      mainRun provider names false = .ok out →
      ∀ n ∈ names, (resolveInputName (mkLowerMap out.results) n).isSome →
        n ∈ out.mappedNames)
    ∧ readNames (some ["Island", "Island"]) = .ok ["Island"]
    ∧ mainRun provIsland ["island", "ISLAND"] false = .ok islandRun2Out
    ∧ islandRun2Out.orderedCards = [islandCard]
    ∧ islandRun2Out.mappedNames = ["island", "ISLAND"] := by
  have hinit : IdInv ⟨[], [], []⟩ := by
    intro t ht
    exact ⟨by simp, fun _ => by simp⟩
  refine ⟨?_, ?_, by decide, rfl, by decide, by decide⟩
  · intro provider names sortAlpha out hrun t ht
    obtain ⟨fa, hfa, hout⟩ := mainRun_ok_inv provider names sortAlpha out hrun
    subst hout
    exact (foldl_orderedStep_idinv (mkLowerMap fa.results)
      (if sortAlpha then sortByLower (fa.results.map (fun p => p.1)) else names)
      ⟨[], [], []⟩ hinit t ht).1
  · intro provider names out hrun n hn hres
    obtain ⟨fa, hfa, hout⟩ := mainRun_ok_inv provider names false out hrun
    subst hout
    exact foldl_orderedStep_mapped_complete (mkLowerMap fa.results) names ⟨[], [], []⟩ n hn hres

/-- Witness for C9 at a two-name input resolving to one shared record. -/
theorem C9_witness :
    ((islandRun2Out.orderedCards.filter (fun c => c.id == some "i1")).length ≤ 1)
    ∧ "ISLAND" ∈ islandRun2Out.mappedNames :=
  ⟨(C9_theorem).1 provIsland ["island", "ISLAND"] false islandRun2Out rfl "i1" (by decide),
   (C9_theorem).2.1 provIsland ["island", "ISLAND"] islandRun2Out rfl "ISLAND"
     (by decide) (by decide)⟩

end MtgSlop

